import Mathlib

/-
Verification development for the time_lang compiler (StreamAsm → Rust).

The embedding covers, from the repository source:
  * the runtime `Stream` ring buffer and its operations, as emitted verbatim by
    `Parser::generate` in src/src/parser/mod.rs (the `stream_code` template);
  * the alphabet conversion functions emitted by `Alphabet::generate` in
    src/src/parser/state/alphabet.rs, modelled as first-match lookups over the
    declared (value, name) list, with enum variants modelled as positions
    (`Fin`) in that list, exactly mirroring the generated match arms in order;
  * the lowered code templates for `jump_earlier` / `jump_later` and
    `forward_duration` from `Program::instruction_call` in
    src/src/parser/state/program.rs;
  * the compiler front end: the command regexes and `Parser::parse_line` from
    src/src/parser/mod.rs, the per-state IR builders
    (`Alphabet::process_command`, `Clock::process_command`,
    `Program::process_command`) and the finalize-on-def logic
    (`Parser::start_state`, `Parser::generate`).

Rust `panic!` is modelled as `Except.error` carrying the message text.  The
text fragments produced by `quote! {..}` + `rustfmt` are modelled as tagged
chunks (`Chunk`) carrying the IR data that instantiates each template: the
claims about the assembler concern only which blocks appear and in which
order, never the byte-level text, and `rustfmt` is an external formatter.
usize counters are modelled as `Nat`; in every state reachable by the
emitted code the counters never underflow (proved below), so wrapping is
irrelevant.
-/

deriving instance DecidableEq for Except

namespace TimeLang

/-- `AlphabetError<CharRep>` from the emitted preamble (parser/mod.rs). -/
inductive AlphabetError (R : Type) where
  | UnknownCharacter : R → AlphabetError R
  | UnexpectedError : String → AlphabetError R
  | NameNotFound : AlphabetError R
deriving DecidableEq

/-- `ExitError` from the emitted preamble (parser/mod.rs). -/
inductive ExitError where
  | BufferFull : ExitError
deriving DecidableEq

/-- `StreamItem<CharacterRep, Moment>` from the emitted preamble.
`Empty` is the `Default` value (used by `core::mem::take` in `pop`). -/
inductive StreamItem (C M : Type) where
  | Empty : StreamItem C M
  | Character : C → StreamItem C M
  | Moment : M → StreamItem C M
deriving DecidableEq

/-- The `AlphabetLike` capability: the three conversion functions an emitted
alphabet provides (trait `AlphabetLike` in the preamble).  `R` is `CharRep`,
`E` is `CharEnum`. -/
structure AlphabetLike (R E : Type) where
  char_with_name : String → Except (AlphabetError String) E
  to_char : R → Except (AlphabetError R) E
  to_val : E → R

/-- `Stream<Alphabet, Clock, BUFFER_SIZE>` from the emitted preamble.  The
fixed array `[StreamItem; BUFFER_SIZE]` is a list whose length is the
buffer size; `usize` fields are `Nat`. -/
structure Stream (C M : Type) where
  buffer : List (StreamItem C M)
  idx : Nat
  buffered_total : Nat
  buffered_moments : Nat
  buffered_characters : Nat
  last_seen_moment : Option M
deriving DecidableEq

/-- `BUFFER_SIZE`: the (fixed) length of the buffer array. -/
def Stream.size (s : Stream C M) : Nat := s.buffer.length

/-- `Stream::new()` (shipped emitted artifact): all cells `Empty`, cursor and
counters zero, no last seen moment. -/
def Stream.new (C M : Type) (n : Nat) : Stream C M :=
  ⟨List.replicate n .Empty, 0, 0, 0, 0, none⟩

/-- `Stream::inc_index`: `self.idx = (self.idx + 1) % BUFFER_SIZE;`. -/
def Stream.inc_index (s : Stream C M) : Stream C M :=
  { s with idx := (s.idx + 1) % s.size }

/-- `set_initial_moment` (ExitLike impl). -/
def Stream.set_initial_moment (s : Stream C M) (moment : M) : Stream C M :=
  { s with last_seen_moment := some moment }

/-- `accepting_pushes`: `self.buffered_total < BUFFER_SIZE`. -/
def Stream.accepting_pushes (s : Stream C M) : Bool :=
  s.buffered_total < s.size

/-- `push` (ExitLike impl): store `Character(to_val chr)` at the cursor,
bump character and total counters, advance the cursor; `BufferFull` and no
mutation when not accepting. -/
def Stream.push (al : AlphabetLike R E) (s : Stream R M) (chr : E) :
    Except ExitError Unit × Stream R M :=
  if s.accepting_pushes then
    (.ok (), ({ s with
        buffer := s.buffer.set s.idx (.Character (al.to_val chr)),
        buffered_characters := s.buffered_characters + 1,
        buffered_total := s.buffered_total + 1 }).inc_index)
  else
    (.error .BufferFull, s)

/-- `push_moment` (ExitLike impl): symmetric to `push`. -/
def Stream.push_moment (s : Stream R M) (moment : M) :
    Except ExitError Unit × Stream R M :=
  if s.accepting_pushes then
    (.ok (), ({ s with
        buffer := s.buffer.set s.idx (.Moment moment),
        buffered_moments := s.buffered_moments + 1,
        buffered_total := s.buffered_total + 1 }).inc_index)
  else
    (.error .BufferFull, s)

/-- `pop` (GatewayLike impl): `mem::take` the cell at the cursor (leaving
`Empty`), advance the cursor, then dispatch on the taken cell.  The `none`
result models the `panic!` on an `UnknownCharacter` decode failure. -/
def Stream.pop (al : AlphabetLike R E) (s : Stream R M) :
    Option (StreamItem E M) × Stream R M :=
  let last := s.buffer.getD s.idx .Empty
  let s1 := ({ s with buffer := s.buffer.set s.idx .Empty }).inc_index
  match last with
  | .Character chr =>
      let s2 := { s1 with
        buffered_characters := s1.buffered_characters - 1,
        buffered_total := s1.buffered_total - 1 }
      match al.to_char chr with
      | .ok c => (some (.Character c), s2)
      | .error _ => (none, s2)
  | .Moment moment =>
      (some (.Moment moment), { s1 with
        buffered_moments := s1.buffered_moments - 1,
        buffered_total := s1.buffered_total - 1,
        last_seen_moment := some moment })
  | .Empty => (some .Empty, s1)

/-- `current_moment` (GatewayLike impl). -/
def Stream.current_moment (s : Stream R M) : Option M := s.last_seen_moment

/-- `is_empty` (GatewayLike impl). -/
def Stream.is_empty (s : Stream R M) : Bool := s.buffered_total == 0

/-- `next_is_character` (GatewayLike impl): the cell at the cursor. -/
def Stream.next_is_character (s : Stream R M) : Bool :=
  match s.buffer.getD s.idx .Empty with
  | .Character _ => true
  | _ => false

/-- `next_is_moment` (GatewayLike impl). -/
def Stream.next_is_moment (s : Stream R M) : Bool :=
  match s.buffer.getD s.idx .Empty with
  | .Moment _ => true
  | _ => false

/-- `forward_duration` (GatewayLike impl): `while next_is_character { pop;
push to exit; short-circuit on BufferFull }`.  Each iteration pops a
`Character` cell and blanks it, so the loop runs at most `BUFFER_SIZE`
iterations; `fuel` is only Lean's termination bound for that loop.  The
`none` result models the `panic!` arm (pop surfacing a non-Character, which
cannot happen when `next_is_character` holds and decoding succeeds). -/
def Stream.forward_duration (al : AlphabetLike R E) :
    Nat → Stream R M → Stream R M →
    Option (Except ExitError Unit) × Stream R M × Stream R M
  | 0, s, exi => (some (.ok ()), s, exi)
  | fuel + 1, s, exi =>
    if s.next_is_character then
      match s.pop al with
      | (some (.Character chr), s1) =>
          match exi.push al chr with
          | (.ok _, e1) => Stream.forward_duration al fuel s1 e1
          | (.error err, e1) => (some (.error err), s1, e1)
      | (_, s1) => (none, s1, exi)
    else
      (some (.ok ()), s, exi)

/-!  ### Emitted alphabet functions (src/src/parser/state/alphabet.rs)

`Alphabet::generate` emits one enum variant per declared `(value, name)`
pair, in order, and three functions whose bodies are match expressions with
one arm per pair, in declaration order (first arm wins).  A variant is
modelled as its position in the declared list; values are the numeric values
of the emitted literal tokens. -/

/-- First index in `l` whose element satisfies `p` (Rust match arms are
tried in order, so the first matching arm wins). -/
def findIdxFin (p : α → Bool) : (l : List α) → Option (Fin l.length)
  | [] => none
  | x :: xs =>
    if p x then some ⟨0, Nat.succ_pos _⟩
    else (findIdxFin p xs).map fun i => ⟨i.1 + 1, Nat.succ_lt_succ i.2⟩

/-- The data of one emitted alphabet: its ordered `(value, name)` pairs. -/
structure GenAlphabet where
  chars : List (Nat × String)

/-- Emitted `char_with_name`: match on the source name strings in
declaration order; no arm matches ⇒ `NameNotFound`. -/
def GenAlphabet.char_with_name (a : GenAlphabet) (name : String) :
    Except (AlphabetError String) (Fin a.chars.length) :=
  match findIdxFin (fun c => c.2 == name) a.chars with
  | some i => .ok i
  | none => .error .NameNotFound

/-- Emitted `to_char`: match on the declared value literals in declaration
order; no arm matches ⇒ `UnknownCharacter(rep)`. -/
def GenAlphabet.to_char (a : GenAlphabet) (rep : Nat) :
    Except (AlphabetError Nat) (Fin a.chars.length) :=
  match findIdxFin (fun c => c.1 == rep) a.chars with
  | some i => .ok i
  | none => .error (.UnknownCharacter rep)

/-- Emitted `to_val`: match on the variant, returning its declared value. -/
def GenAlphabet.to_val (a : GenAlphabet) (chr : Fin a.chars.length) : Nat :=
  (a.chars.get chr).1

/-- The `AlphabetLike` trait impl the alphabet emitter generates. -/
def GenAlphabet.like (a : GenAlphabet) :
    AlphabetLike Nat (Fin a.chars.length) :=
  ⟨a.char_with_name, a.to_char, a.to_val⟩

/-!  ### Lowered instruction templates (src/src/parser/state/program.rs)

`Program::instruction_call` lowers `JumpEarlier`/`JumpLater` to a clock-tag
guard followed by a match on the two gateways' `current_moment()`, and
`ForwardDuration` to an inline pop/push loop.  The templates are modelled as
functions of the data they read at runtime. -/

/-- What one lowered jump site does: panic at the clock-tag guard, take the
jump (`return self.label_L();`), or fall through to the next statement. -/
inductive JumpOutcome where
  | panicked : JumpOutcome
  | jump : JumpOutcome
  | fallThrough : JumpOutcome
deriving DecidableEq

/-- Lowered `JumpEarlier` site: `if ClockA::represents() !=
ClockB::represents() { panic!(..) }` then `match (a.current_moment(),
b.current_moment()) { (None, Some(_)) => jump, (Some(a), Some(b)) if a < b
=> jump, _ => () }`. -/
def jumpEarlierOutcome [LinearOrder M] (reprA reprB : String)
    (ga gb : Stream R M) : JumpOutcome :=
  if reprA ≠ reprB then .panicked
  else
    match ga.current_moment, gb.current_moment with
    | none, some _ => .jump
    | some a, some b => if a < b then .jump else .fallThrough
    | _, _ => .fallThrough

/-- Lowered `JumpLater` site: as `jumpEarlierOutcome` with arms
`(Some(_), None) => jump` and `(Some(a), Some(b)) if a > b => jump`. -/
def jumpLaterOutcome [LinearOrder M] (reprA reprB : String)
    (ga gb : Stream R M) : JumpOutcome :=
  if reprA ≠ reprB then .panicked
  else
    match ga.current_moment, gb.current_moment with
    | some _, none => .jump
    | some a, some b => if b < a then .jump else .fallThrough
    | _, _ => .fallThrough

/-- Lowered `ForwardDuration` site: `loop { match gateway.pop() {
Character(chr) => exit.push(chr).expect(..), Moment(m) =>
{ exit.push_moment(m).expect(..); break; }, Empty => continue } }`.
`none` models both a panic (an `expect` failing, or `pop` panicking) and
fuel running out (the Rust loop spins forever on an all-`Empty` buffer). -/
def fwdDurationLoop (al : AlphabetLike R E) :
    Nat → Stream R M → Stream R M → Option (Stream R M × Stream R M)
  | 0, _, _ => none
  | fuel + 1, g, e =>
    match g.pop al with
    | (some (.Character chr), g1) =>
        match e.push al chr with
        | (.ok _, e1) => fwdDurationLoop al fuel g1 e1
        | (.error _, _) => none
    | (some (.Moment moment), g1) =>
        match e.push_moment moment with
        | (.ok _, e1) => some (g1, e1)
        | (.error _, _) => none
    | (some .Empty, g1) => fwdDurationLoop al fuel g1 e
    | (none, _) => none

/-!  ### Compiler front end: IR builders and dispatcher

From src/src/parser/state/{alphabet,clock,program}.rs and
src/src/parser/mod.rs.  A Rust `panic!` is an `Except.error` carrying the
formatted message. -/

/-- `ArgType` (program.rs). -/
inductive ArgType where
  | Name : String → ArgType
  | Label : String → ArgType
  | Gateway : String → ArgType
  | Exit : String → ArgType
  | Alphabet : String → ArgType
  | Clock : String → ArgType
  | Moment : String → ArgType
  | Character : String → ArgType
  | Number : String → ArgType
  | Program : String → ArgType
deriving DecidableEq

/-- `Instruction` (program.rs). -/
inductive Instruction where
  | StartMoment : ArgType → ArgType → Instruction
  | PushMoment : ArgType → ArgType → Instruction
  | ForwardMoment : ArgType → ArgType → Instruction
  | PushChar : ArgType → ArgType → Instruction
  | PushVal : ArgType → ArgType → Instruction
  | JumpEarlier : ArgType → ArgType → ArgType → Instruction
  | JumpLater : ArgType → ArgType → ArgType → Instruction
  | ForwardDuration : ArgType → ArgType → Instruction
  | Connect : ArgType → ArgType → Instruction
  | ExitGateway : ArgType → ArgType → Instruction
deriving DecidableEq

/-- The `Alphabet` IR builder (alphabet.rs): name, optional char type, and
the ordered `(hex_rep, name)` pairs as source strings. -/
structure Alphabet where
  name : String
  char_type : Option String
  chars : List (String × String)
deriving DecidableEq

/-- `Alphabet::process_command`: `set_char_type` overwrites the char type,
`def_char` appends a pair (no duplicate checking); anything else panics. -/
def Alphabet.process_command (a : Alphabet) (filename : String)
    (lineno : Nat) (cmd : String) (args : List String) :
    Except String Alphabet :=
  match cmd, args with
  | "set_char_type", [char_type] => .ok { a with char_type := some char_type }
  | "def_char", [hex_rep, name] =>
      .ok { a with chars := a.chars ++ [(hex_rep, name)] }
  | _, _ =>
      .error (filename ++ ":" ++ toString lineno ++ " Alphabet (" ++ a.name
        ++ ") - unknown command: " ++ cmd)

/-- The `Clock` IR builder (clock.rs). -/
structure Clock where
  name : String
  moment_type : Option String
  repr : Option String
deriving DecidableEq

/-- `Clock::process_command`. -/
def Clock.process_command (c : Clock) (filename : String) (lineno : Nat)
    (cmd : String) (args : List String) : Except String Clock :=
  match cmd, args with
  | "set_moment_type", [moment_type] =>
      .ok { c with moment_type := some moment_type }
  | "set_clock_repr", [repr] => .ok { c with repr := some repr }
  | _, _ =>
      .error (filename ++ ":" ++ toString lineno ++ " Clock (" ++ c.name
        ++ ") - unknown command: " ++ cmd)

/-- The `Program` IR builder (program.rs): label blocks (name plus ordered
instructions), gateway declarations, exit declarations. -/
structure Program where
  name : String
  instructions : List (ArgType × List Instruction)
  gateways : List (ArgType × ArgType × ArgType × ArgType)
  exits : List (ArgType × ArgType × ArgType × ArgType)
deriving DecidableEq

/-- Append an instruction to the last label block (`last_mut` in Rust; the
dispatcher seeds the `root` block first, so the list is never empty). -/
def pushToLast (l : List (ArgType × List Instruction)) (i : Instruction) :
    List (ArgType × List Instruction) :=
  match l with
  | [] => []
  | [x] => [(x.1, x.2 ++ [i])]
  | x :: xs => x :: pushToLast xs i

/-- `Program::process_command`: seed the implicit `root` block when no block
exists yet, then dispatch on the command exactly as the Rust match does.
Note the jump commands are named `jump_earlier` / `jump_later` here. -/
def Program.process_command (p : Program) (filename : String) (lineno : Nat)
    (cmd : String) (args : List String) : Except String Program :=
  let p :=
    if p.instructions.length == 0 then
      { p with instructions := [(ArgType.Name "root", [])] }
    else p
  match cmd, args with
  | "start_moment", [moment, exit_name] =>
      .ok { p with instructions := (pushToLast p.instructions (.StartMoment (.Moment moment) (.Exit exit_name))) }
  | "reg_gateway", [name, alphabet, clock, buf_size] =>
      .ok { p with gateways := p.gateways ++
        [(.Name name, .Alphabet alphabet, .Clock clock, .Number buf_size)] }
  | "reg_exit", [name, alphabet, clock, buf_size] =>
      .ok { p with exits := p.exits ++
        [(.Name name, .Alphabet alphabet, .Clock clock, .Number buf_size)] }
  | "reg_exit_gateway", [connected_name, gateway] =>
      .ok { p with instructions := (pushToLast p.instructions (.ExitGateway (.Exit connected_name) (.Gateway gateway))) }
  | "label", [name] =>
      .ok { p with instructions := p.instructions ++ [(.Name name, [])] }
  | "jump_earlier", [label_name, a, b] =>
      .ok { p with instructions := (pushToLast p.instructions (.JumpEarlier (.Label label_name) (.Gateway a) (.Gateway b))) }
  | "jump_later", [label_name, a, b] =>
      .ok { p with instructions := (pushToLast p.instructions (.JumpLater (.Label label_name) (.Gateway a) (.Gateway b))) }
  | "push_moment", [moment_incr, exit_name] =>
      .ok { p with instructions := (pushToLast p.instructions (.PushMoment (.Moment moment_incr) (.Exit exit_name))) }
  | "forward_moment", [gateway, exit_name] =>
      .ok { p with instructions := (pushToLast p.instructions (.ForwardMoment (.Gateway gateway) (.Exit exit_name))) }
  | "push_char", [chr, exit_name] =>
      .ok { p with instructions := (pushToLast p.instructions (.PushChar (.Character chr) (.Exit exit_name))) }
  | "push_val", [chr, exit_name] =>
      .ok { p with instructions := (pushToLast p.instructions (.PushVal (.Number chr) (.Exit exit_name))) }
  | "forward_duration", [gateway, exit_name] =>
      .ok { p with instructions := (pushToLast p.instructions (.ForwardDuration (.Gateway gateway) (.Exit exit_name))) }
  | "connect", [program, name] =>
      .ok { p with instructions := (pushToLast p.instructions (.Connect (.Program program) (.Name name))) }
  | _, _ =>
      .error (filename ++ ":" ++ toString lineno ++ " Program (" ++ p.name
        ++ ") - unknown command: " ++ cmd)

/-- Dispatcher state (state/mod.rs). -/
inductive State where
  | General : State
  | Alphabet : TimeLang.Alphabet → State
  | Clock : TimeLang.Clock → State
  | Program : TimeLang.Program → State
deriving DecidableEq

/-- `State::alphabet` constructor. -/
def State.alphabet (name : String) : State := .Alphabet ⟨name, none, []⟩

/-- `State::clock` constructor. -/
def State.clock (name : String) : State := .Clock ⟨name, none, none⟩

/-- `State::program` constructor. -/
def State.program (name : String) : State := .Program ⟨name, [], [], []⟩

/-- One rendered text chunk of the output.  The four base chunks are the
fixed `rustfmt(quote! {..})` fragments of `Parser::generate`; a block chunk
carries the IR data that instantiates the corresponding emitter template
(the byte-level text, produced through the external `rustfmt`, is abstracted
to the template plus its parameters).  `blank` is the empty string
`State::General` generates. -/
inductive Chunk where
  | headerBase : Chunk
  | alphabetBase : Chunk
  | clockBase : Chunk
  | streamBase : Chunk
  | blank : Chunk
  | alphabetBlock : String → String → List (String × String) → Chunk
  | clockBlock : String → String → String → Chunk
  | programBlock : TimeLang.Program → Chunk
deriving DecidableEq

/-- `State::generate` (state/mod.rs plus the per-builder `generate`
preflight checks): `General` yields the empty chunk; an alphabet without
`set_char_type` is an error; a clock checks `set_clock_repr` first, then
`set_moment_type`; a program always renders. -/
def State.generate (st : State) : Except String Chunk :=
  match st with
  | .General => .ok .blank
  | .Alphabet a =>
      match a.char_type with
      | some ct => .ok (.alphabetBlock a.name ct a.chars)
      | none =>
          .error ("Never called set_char_type on Alphabet (" ++ a.name ++ ")")
  | .Clock c =>
      match c.repr with
      | none =>
          .error ("Never called set_clock_repr on Clock (" ++ c.name ++ ")")
      | some repr =>
          match c.moment_type with
          | none => .error
              ("Never called set_moment_type on Clock (" ++ c.name ++ ")")
          | some mt => .ok (.clockBlock c.name mt repr)
  | .Program p => .ok (.programBlock p)

/-- `State::process_command` (state/mod.rs): `General` panics on any
command; the other states delegate to their builder. -/
def State.process_command (st : State) (filename : String) (lineno : Nat)
    (cmd : String) (args : List String) : Except String State :=
  match st with
  | .General => .error ("General - Unknown command: " ++ cmd)
  | .Alphabet a => (a.process_command filename lineno cmd args).map .Alphabet
  | .Clock c => (c.process_command filename lineno cmd args).map .Clock
  | .Program p => (p.process_command filename lineno cmd args).map .Program

/-!  ### Line parsing (src/src/parser/mod.rs)

`CMD_REGEX = ^(?<cmd>[a-zA-Z0-9_]+)([\s]+(?<args>.+))?;$` and
`COMMENT_REGEX = ^(#+)(?<comment>.*)(#*)$`, applied per line (lines carry no
newline, and `.` never matches a newline anyway). -/

/-- The `[a-zA-Z0-9_]` class of `CMD_REGEX`. -/
def isWordChar (c : Char) : Bool :=
  (('a' ≤ c && c ≤ 'z') || ('A' ≤ c && c ≤ 'Z')
    || ('0' ≤ c && c ≤ '9') || c = '_')

/-- The `\s` class (ASCII part: space, tab, newline, vertical tab, form
feed, carriage return; source lines are ASCII). -/
def isSpaceChar (c : Char) : Bool :=
  (c = ' ' || c = '\t' || c = '\n' || c = '\x0b' || c = '\x0c' || c = '\r')

/-- Matching `CMD_REGEX` against a line: the `cmd` capture is the maximal
leading `[a-zA-Z0-9_]+` run (anything shorter cannot be followed by `[\s]`
or the final `;`); then either the line ends immediately with `;` (the
optional group is absent, `none`), or at least one `\s` follows and the
`args` capture is everything up to the final `;` — except that when only
whitespace stands before the final `;`, the greedy `[\s]+` backtracks one
character into `.+`, making `args` that single whitespace character.
`.` does not match a newline. -/
def parseCmdLine (line : String) : Option (String × Option String) :=
  let cs := line.toList
  let cmd := cs.takeWhile isWordChar
  let rest := cs.dropWhile isWordChar
  if cmd.isEmpty then none
  else if rest = [';'] then some (cmd.asString, none)
  else
    let ws := rest.takeWhile isSpaceChar
    let rem := rest.dropWhile isSpaceChar
    if ws.isEmpty then none
    else
      match rem.getLast? with
      | some ';' =>
          if rem.length == 1 then
            match ws.getLast? with
            | some w =>
                if ws.length ≥ 2 && w ≠ '\n' then
                  some (cmd.asString, some (String.mk [w]))
                else none
            | none => none
          else if (rem.dropLast).all (fun c => c ≠ '\n') then
            some (cmd.asString, some (rem.dropLast).asString)
          else none
      | _ => none

/-- Matching `COMMENT_REGEX`: the line starts with `#` and neither `#+`,
`.*` nor `#*` can cross a newline. -/
def matchesComment (line : String) : Bool :=
  match line.toList with
  | [] => false
  | c :: rest => c = '#' && rest.all (fun x => x ≠ '\n')

/-- Rust `str::split(",")` on the character list: splitting on every comma,
keeping empty pieces (splitting the empty string gives one empty piece). -/
def splitCommaChars : List Char → List (List Char)
  | [] => [[]]
  | c :: rest =>
    let r := splitCommaChars rest
    if c = ',' then [] :: r
    else
      match r with
      | [] => [[c]]
      | x :: xs => (c :: x) :: xs

/-- Rust `args.split(",").collect::<Vec<_>>()`. -/
def splitComma (s : String) : List String :=
  (splitCommaChars s.toList).map List.asString

/-- The `Parser` record (parser/mod.rs): dispatcher state, the accumulated
output `source` (as chunks), and the line counter. -/
structure Parser where
  filename : String
  state : State
  source : List Chunk
  lineno : Nat
deriving DecidableEq

/-- `Parser::new`. -/
def Parser.new (filename : String) : Parser := ⟨filename, .General, [], 0⟩

/-- `Parser::start_state`: render the state being left and append it to the
output, then switch to the new builder state; a render error panics. -/
def Parser.start_state (p : Parser) (state : State) : Except String Parser :=
  match p.state.generate with
  | .ok generated_code =>
      .ok { p with source := p.source ++ [generated_code], state := state }
  | .error err => .error ("Error generating code:" ++ err)

/-- `Parser::parse_line`: bump the line counter; on a command match, split
the `args` capture on `,` (Rust indexes the capture unconditionally, so a
command with no argument part panics), handle the three `def*` commands via
`start_state`, otherwise delegate to the state; a comment match and a
non-match both do nothing. -/
def Parser.parse_line (p : Parser) (line : String) : Except String Parser :=
  let p := { p with lineno := p.lineno + 1 }
  match parseCmdLine line with
  | some (cmd, argsOpt) =>
    match argsOpt with
    | none => .error "no match found for capture group args"
    | some argsStr =>
      let args := splitComma argsStr
      match cmd, args with
      | "defalphabet", [name] => p.start_state (State.alphabet name)
      | "defclock", [name] => p.start_state (State.clock name)
      | "defprogram", [name] => p.start_state (State.program name)
      | _, _ =>
          (p.state.process_command p.filename p.lineno cmd args).map
            fun st => { p with state := st }
  | none =>
    if matchesComment line then .ok p else .ok p

/-- `Parser::generate`: the four fixed preamble fragments followed by the
accumulated source.  The dispatcher state still being built is NOT rendered
here. -/
def Parser.generate (p : Parser) : List Chunk :=
  [.headerBase, .alphabetBase, .clockBase, .streamBase] ++ p.source

/-- The driver loop of `main.rs`: feed lines one by one. -/
def Parser.parse_lines (p : Parser) : List String → Except String Parser
  | [] => .ok p
  | l :: ls =>
    match p.parse_line l with
    | .ok q => q.parse_lines ls
    | .error e => .error e

/-!  ### Counter bookkeeping invariant (for the counter law of the spec)

The buffer-aware invariant `Inv`: the counters dominate the cell counts and
satisfy the counter equation.  It holds of a fresh stream, is preserved by
every operation, and implies `buffered_characters + buffered_moments =
buffered_total`. -/

/-- 1 for a `Character` cell, 0 otherwise. -/
def charWeight : StreamItem R M → Nat
  | .Character _ => 1
  | _ => 0

/-- 1 for a `Moment` cell, 0 otherwise. -/
def momentWeight : StreamItem R M → Nat
  | .Moment _ => 1
  | _ => 0

/-- Total weight of a buffer. -/
def weightSum (w : StreamItem R M → Nat) : List (StreamItem R M) → Nat
  | [] => 0
  | x :: rest => w x + weightSum w rest

/-- The bookkeeping invariant tying a stream's counters to its cells. -/
def Stream.Inv (s : Stream R M) : Prop :=
  weightSum charWeight s.buffer ≤ s.buffered_characters ∧
  weightSum momentWeight s.buffer ≤ s.buffered_moments ∧
  s.buffered_characters + s.buffered_moments = s.buffered_total

/-- All states of a stream produced by the emitted runtime: a fresh stream,
or the result of any `push`, `push_moment`, `pop`, `set_initial_moment`, or
`forward_duration` applied to such states. -/
inductive Reachable : Stream R M → Prop where
  | init (n : Nat) : Reachable (Stream.new R M n)
  | push {E : Type} (al : AlphabetLike R E) (chr : E) {s : Stream R M} :
      Reachable s → Reachable (s.push al chr).2
  | push_moment (m : M) {s : Stream R M} :
      Reachable s → Reachable (s.push_moment m).2
  | pop {E : Type} (al : AlphabetLike R E) {s : Stream R M} :
      Reachable s → Reachable (s.pop al).2
  | set_initial_moment (m : M) {s : Stream R M} :
      Reachable s → Reachable (s.set_initial_moment m)
  | fd_gateway {E : Type} (al : AlphabetLike R E) (fuel : Nat)
      {s t : Stream R M} : Reachable s → Reachable t →
      Reachable (Stream.forward_duration al fuel s t).2.1
  | fd_exit {E : Type} (al : AlphabetLike R E) (fuel : Nat)
      {s t : Stream R M} : Reachable s → Reachable t →
      Reachable (Stream.forward_duration al fuel s t).2.2

/-!  ### Concrete test fixtures -/

/-- Whether a chunk is an emitted program block. -/
def Chunk.isProgramBlock : Chunk → Bool
  | .programBlock _ => true
  | _ => false

/-- A one-character alphabet: `def_char 0x41,A_UPPERCASE`. -/
def asciiA : GenAlphabet := ⟨[(65, "A_UPPERCASE")]⟩

/-- Its single variant `AUppercase`. -/
def charA : Fin asciiA.chars.length := ⟨0, Nat.succ_pos 0⟩

/-- A one-character alphabet holding the character `C` (0x43). -/
def asciiC : GenAlphabet := ⟨[(67, "C_UPPERCASE")]⟩

/-- A stream at capacity: one cell, one buffered character. -/
def fullStream : Stream Nat Nat := ⟨[.Character 65], 0, 1, 0, 1, none⟩

/-- A gateway pre-loaded with `C,C,C,Moment(5),C`: the state reached by
pushing those five items onto a fresh stream of capacity 5. -/
def fdGateway : Stream Nat Nat :=
  ⟨[.Character 67, .Character 67, .Character 67, .Moment 5, .Character 67],
   0, 5, 1, 4, none⟩

/-- A fresh exit of capacity 5. -/
def fdExit : Stream Nat Nat := Stream.new Nat Nat 5

/-- The gateway after the emitted forward_duration loop: the first four
cells consumed, the final `C` still at the cursor. -/
def fdGatewayAfter : Stream Nat Nat :=
  ⟨[.Empty, .Empty, .Empty, .Empty, .Character 67], 4, 1, 0, 1, some 5⟩

/-- The exit after the emitted forward_duration loop: `C,C,C,Moment(5)`. -/
def fdExitAfter : Stream Nat Nat :=
  ⟨[.Character 67, .Character 67, .Character 67, .Moment 5, .Empty],
   4, 4, 1, 3, none⟩

/-- A source whose kinds are interleaved (clock first) and whose last
definition (a program) is still open when input ends. -/
def c2Lines : List String :=
  ["defclock K;", "set_moment_type u32;", "set_clock_repr QUANTITY;",
   "defalphabet A;", "set_char_type u8;", "defprogram P;",
   "push_moment 1,OUT;"]

/-- The parser state after feeding `c2Lines` to a fresh parser. -/
def c2ParserFinal : Parser :=
  ⟨"program",
   .Program ⟨"P", [(.Name "root", [.PushMoment (.Moment "1") (.Exit "OUT")])],
     [], []⟩,
   [.blank, .clockBlock "K" "u32" "QUANTITY", .alphabetBlock "A" "u8" []],
   7⟩

/-- A parser sitting in a finished clock definition. -/
def c2wParser : Parser :=
  ⟨"program", .Clock ⟨"K", some "u32", some "QUANTITY"⟩, [Chunk.blank], 3⟩

/-- The same parser after `defalphabet A` finalizes the clock. -/
def c2wParserAfter : Parser :=
  ⟨"program", State.alphabet "A",
   [Chunk.blank, Chunk.clockBlock "K" "u32" "QUANTITY"], 3⟩

theorem weightSum_set (w : StreamItem R M → Nat) (h0 : w .Empty = 0)
    (x : StreamItem R M) :
    ∀ (l : List (StreamItem R M)) (i : Nat),
      weightSum w (l.set i x) + w (l.getD i .Empty) =
      weightSum w l + (if i < l.length then w x else 0) := by
  intro l
  induction l with
  | nil => intro i; simp [weightSum, List.getD, h0]
  | cons a as ih =>
    intro i
    cases i with
    | zero => simp [weightSum, List.getD]; omega
    | succ j =>
      have hj := ih j
      simp only [List.set, weightSum, List.getD_cons_succ, List.length_cons]
      by_cases hc : j < as.length
      · rw [if_pos (by omega : j + 1 < as.length + 1)]
        rw [if_pos hc] at hj
        omega
      · rw [if_neg (by omega : ¬ j + 1 < as.length + 1)]
        rw [if_neg hc] at hj
        omega

theorem weightSum_set_le (w : StreamItem R M → Nat) (h0 : w .Empty = 0)
    (x : StreamItem R M) (l : List (StreamItem R M)) (i : Nat) :
    weightSum w (l.set i x) ≤ weightSum w l + w x := by
  have := weightSum_set w h0 x l i
  by_cases h : i < l.length <;> simp [h] at this <;> omega

theorem inv_new (R M : Type) (n : Nat) : (Stream.new R M n).Inv := by
  refine ⟨?_, ?_, rfl⟩ <;>
  · show weightSum _ (List.replicate n .Empty) ≤ 0
    induction n with
    | zero => simp [weightSum]
    | succ k ih => simpa [List.replicate, weightSum, charWeight, momentWeight]
        using ih

theorem inv_push {E : Type} (al : AlphabetLike R E) (chr : E)
    {s : Stream R M} (h : s.Inv) : (s.push al chr).2.Inv := by
  obtain ⟨h1, h2, h3⟩ := h
  unfold Stream.push
  by_cases hacc : s.accepting_pushes
  · simp only [hacc, if_pos]
    refine ⟨?_, ?_, ?_⟩
    · simp only [Stream.inc_index]
      calc weightSum charWeight (s.buffer.set s.idx
            (.Character (al.to_val chr)))
          ≤ weightSum charWeight s.buffer + charWeight
            (StreamItem.Character (M := M) (al.to_val chr)) :=
            weightSum_set_le _ rfl _ _ _
        _ ≤ s.buffered_characters + 1 := by
            simp [charWeight]; omega
    · simp only [Stream.inc_index]
      calc weightSum momentWeight (s.buffer.set s.idx
            (.Character (al.to_val chr)))
          ≤ weightSum momentWeight s.buffer + momentWeight
            (StreamItem.Character (M := M) (al.to_val chr)) :=
            weightSum_set_le _ rfl _ _ _
        _ ≤ s.buffered_moments := by simp [momentWeight]; omega
    · simp only [Stream.inc_index]; omega
  · simp only [hacc]
    exact ⟨h1, h2, h3⟩

theorem inv_push_moment (m : M) {s : Stream R M} (h : s.Inv) :
    (s.push_moment m).2.Inv := by
  obtain ⟨h1, h2, h3⟩ := h
  unfold Stream.push_moment
  by_cases hacc : s.accepting_pushes
  · simp only [hacc, if_pos]
    refine ⟨?_, ?_, ?_⟩
    · simp only [Stream.inc_index]
      calc weightSum charWeight (s.buffer.set s.idx (.Moment m))
          ≤ weightSum charWeight s.buffer + charWeight
            (StreamItem.Moment (C := R) m) := weightSum_set_le _ rfl _ _ _
        _ ≤ s.buffered_characters := by simp [charWeight]; omega
    · simp only [Stream.inc_index]
      calc weightSum momentWeight (s.buffer.set s.idx (.Moment m))
          ≤ weightSum momentWeight s.buffer + momentWeight
            (StreamItem.Moment (C := R) m) := weightSum_set_le _ rfl _ _ _
        _ ≤ s.buffered_moments + 1 := by simp [momentWeight]; omega
    · simp only [Stream.inc_index]; omega
  · simp only [hacc]
    exact ⟨h1, h2, h3⟩

theorem inv_pop {E : Type} (al : AlphabetLike R E) {s : Stream R M}
    (h : s.Inv) : (s.pop al).2.Inv := by
  obtain ⟨h1, h2, h3⟩ := h
  have hset : ∀ w : StreamItem R M → Nat, w .Empty = 0 →
      weightSum w (s.buffer.set s.idx .Empty)
        + w (s.buffer.getD s.idx .Empty) = weightSum w s.buffer := by
    intro w h0
    have hws := weightSum_set w h0 .Empty s.buffer s.idx
    by_cases hi : s.idx < s.buffer.length
    · rw [if_pos hi, h0] at hws; omega
    · rw [if_neg hi] at hws; omega
  have hc := hset charWeight rfl
  have hm := hset momentWeight rfl
  rcases hcell : s.buffer.getD s.idx .Empty with _ | chr | m
  · rw [hcell] at hc hm
    simp only [charWeight, momentWeight] at hc hm
    simp only [Stream.pop, hcell, Stream.inc_index]
    refine ⟨?_, ?_, ?_⟩ <;> dsimp only <;> omega
  · rw [hcell] at hc hm
    simp only [charWeight, momentWeight] at hc hm
    simp only [Stream.pop, hcell, Stream.inc_index]
    rcases htc : al.to_char chr with e | c <;>
    · simp only [htc]
      refine ⟨?_, ?_, ?_⟩ <;> dsimp only <;> omega
  · rw [hcell] at hc hm
    simp only [charWeight, momentWeight] at hc hm
    simp only [Stream.pop, hcell, Stream.inc_index]
    refine ⟨?_, ?_, ?_⟩ <;> dsimp only <;> omega

theorem inv_sim (m : M) {s : Stream R M} (h : s.Inv) :
    (s.set_initial_moment m).Inv := by
  obtain ⟨h1, h2, h3⟩ := h
  exact ⟨h1, h2, h3⟩

theorem inv_fd {E : Type} (al : AlphabetLike R E) :
    ∀ (fuel : Nat) {s t : Stream R M}, s.Inv → t.Inv →
      (Stream.forward_duration al fuel s t).2.1.Inv ∧
      (Stream.forward_duration al fuel s t).2.2.Inv := by
  intro fuel
  induction fuel with
  | zero => intro s t hs ht; exact ⟨hs, ht⟩
  | succ k ih =>
    intro s t hs ht
    simp only [Stream.forward_duration]
    by_cases hnc : s.next_is_character
    · simp only [hnc, if_pos]
      rcases hp : s.pop al with ⟨r, s1⟩
      have hs1 : s1.Inv := by
        have hq := inv_pop al hs; rw [hp] at hq; exact hq
      rcases r with _ | it
      · simp only [hp]
        exact ⟨hs1, ht⟩
      · rcases it with _ | chr | m
        · simp only [hp]
          exact ⟨hs1, ht⟩
        · rcases hpu : t.push al chr with ⟨pr, e1⟩
          have he1 : e1.Inv := by
            have hq := inv_push al chr ht; rw [hpu] at hq; exact hq
          rcases pr with perr | pok
          · simp only [hp, hpu]
            exact ⟨hs1, he1⟩
          · simp only [hp, hpu]
            exact ih hs1 he1
        · simp only [hp]
          exact ⟨hs1, ht⟩
    · simp only [hnc]
      simp only [Bool.false_eq_true, if_false]
      exact ⟨hs, ht⟩

theorem reachable_inv {s : Stream R M} (h : Reachable s) : s.Inv := by
  induction h with
  | init n => exact inv_new _ _ n
  | push al chr _ ih => exact inv_push al chr ih
  | push_moment m _ ih => exact inv_push_moment m ih
  | pop al _ ih => exact inv_pop al ih
  | set_initial_moment m _ ih => exact inv_sim m ih
  | fd_gateway al fuel _ _ ihs iht => exact (inv_fd al fuel ihs iht).1
  | fd_exit al fuel _ _ ihs iht => exact (inv_fd al fuel ihs iht).2

theorem findIdxFin_eq_none {α : Type} {p : α → Bool} :
    ∀ {l : List α}, (∀ x ∈ l, p x = false) → findIdxFin p l = none := by
  intro l
  induction l with
  | nil => intro _; rfl
  | cons x xs ih =>
    intro h
    have h0 := h x (List.mem_cons_self x xs)
    have hrest := ih fun y hy => h y (List.mem_cons_of_mem x hy)
    simp [findIdxFin, h0, hrest]

/-- First-match lookup in an alphabet with unique names and unique values:
the name lookup, the value lookup and the stored pair all agree. -/
theorem alphabet_lookup {l : List (Nat × String)}
    (hn : (l.map Prod.snd).Nodup) (hv : (l.map Prod.fst).Nodup)
    {v : Nat} {n : String} (hmem : (v, n) ∈ l) :
    ∃ i : Fin l.length, findIdxFin (fun c => c.2 == n) l = some i ∧
      findIdxFin (fun c => c.1 == v) l = some i ∧ l.get i = (v, n) := by
  induction l with
  | nil => cases hmem
  | cons x xs ih =>
    rw [List.map_cons, List.nodup_cons] at hn hv
    rcases List.mem_cons.mp hmem with hx | hx
    · refine ⟨⟨0, Nat.succ_pos _⟩, ?_, ?_, ?_⟩
      · simp [findIdxFin, hx.symm]
      · simp [findIdxFin, hx.symm]
      · simpa using hx.symm
    · have hn2 : ¬ x.2 = n := by
        intro he
        exact hn.1 (by rw [he]; exact List.mem_map_of_mem Prod.snd hx)
      have hv2 : ¬ x.1 = v := by
        intro he
        exact hv.1 (by rw [he]; exact List.mem_map_of_mem Prod.fst hx)
      obtain ⟨i, h1, h2, h3⟩ := ih hn.2 hv.2 hx
      refine ⟨⟨i.1 + 1, Nat.succ_lt_succ i.2⟩, ?_, ?_, ?_⟩
      · simp [findIdxFin, hn2, h1]
      · simp [findIdxFin, hv2, h2]
      · simpa using h3

/-!  ### Claim theorems -/

theorem jumpEarlier_jump_iff {R M : Type} [LinearOrder M]
    (reprA reprB : String) (ga gb : Stream R M) :
    jumpEarlierOutcome reprA reprB ga gb = .jump ↔
      (reprA = reprB ∧
        ((ga.current_moment = none ∧ ∃ b, gb.current_moment = some b) ∨
         (∃ a b, ga.current_moment = some a ∧ gb.current_moment = some b
            ∧ a < b))) := by
  unfold jumpEarlierOutcome
  rcases hma : ga.current_moment with _ | a <;>
    rcases hmb : gb.current_moment with _ | b <;>
      by_cases hre : reprA = reprB <;>
        simp [hre, hma, hmb]

theorem jumpLater_jump_iff {R M : Type} [LinearOrder M]
    (reprA reprB : String) (ga gb : Stream R M) :
    jumpLaterOutcome reprA reprB ga gb = .jump ↔
      (reprA = reprB ∧
        ((∃ a, ga.current_moment = some a ∧ gb.current_moment = none) ∨
         (∃ a b, ga.current_moment = some a ∧ gb.current_moment = some b
            ∧ b < a))) := by
  unfold jumpLaterOutcome
  rcases hma : ga.current_moment with _ | a <;>
    rcases hmb : gb.current_moment with _ | b <;>
      by_cases hre : reprA = reprB <;>
        simp [hre, hma, hmb]

theorem jumpEarlier_panic_iff {R M : Type} [LinearOrder M]
    (reprA reprB : String) (ga gb : Stream R M) :
    jumpEarlierOutcome reprA reprB ga gb = .panicked ↔ reprA ≠ reprB := by
  unfold jumpEarlierOutcome
  by_cases hre : reprA = reprB <;> simp [hre] <;>
    rcases ga.current_moment with _ | a <;>
      rcases gb.current_moment with _ | b <;> simp <;>
        split_ifs <;> simp

theorem jumpLater_panic_iff {R M : Type} [LinearOrder M]
    (reprA reprB : String) (ga gb : Stream R M) :
    jumpLaterOutcome reprA reprB ga gb = .panicked ↔ reprA ≠ reprB := by
  unfold jumpLaterOutcome
  by_cases hre : reprA = reprB <;> simp [hre] <;>
    rcases ga.current_moment with _ | a <;>
      rcases gb.current_moment with _ | b <;> simp <;>
        split_ifs <;> simp

/-- C3. In the lowered code for a jump-earlier (`jlt`) instruction on
gateways A and B, the jump (`return self.label_L();`) is taken exactly when
`current_moment(A)` is `None` and `current_moment(B)` is `Some`, or both are
`Some` with A's moment strictly below B's; jump-later (`jgt`) is the mirror
image; and each comparison site panics exactly when the two clocks'
`represents()` strings differ. -/
theorem jump_lowering_correct {R M : Type} [LinearOrder M]
    (reprA reprB : String) (ga gb : Stream R M) :
    (jumpEarlierOutcome reprA reprB ga gb = .jump ↔
      (reprA = reprB ∧
        ((ga.current_moment = none ∧ ∃ b, gb.current_moment = some b) ∨
         (∃ a b, ga.current_moment = some a ∧ gb.current_moment = some b
            ∧ a < b))))
    ∧ (jumpLaterOutcome reprA reprB ga gb = .jump ↔
      (reprA = reprB ∧
        ((∃ a, ga.current_moment = some a ∧ gb.current_moment = none) ∨
         (∃ a b, ga.current_moment = some a ∧ gb.current_moment = some b
            ∧ b < a))))
    ∧ (jumpEarlierOutcome reprA reprB ga gb = .panicked ↔ reprA ≠ reprB)
    ∧ (jumpLaterOutcome reprA reprB ga gb = .panicked ↔ reprA ≠ reprB) :=
  ⟨jumpEarlier_jump_iff reprA reprB ga gb,
   jumpLater_jump_iff reprA reprB ga gb,
   jumpEarlier_panic_iff reprA reprB ga gb,
   jumpLater_panic_iff reprA reprB ga gb⟩

/-- C4. A push of a character or of a moment onto a stream whose
`buffered_total` equals `BUFFER_SIZE` returns `Err(BufferFull)` and leaves
the stream (all fields) unchanged. -/
theorem push_at_capacity_rejected {R M E : Type} (al : AlphabetLike R E)
    (s : Stream R M) (h : s.buffered_total = s.size) (chr : E) (m : M) :
    s.push al chr = (.error .BufferFull, s) ∧
    s.push_moment m = (.error .BufferFull, s) := by
  have hacc : s.accepting_pushes = false := by
    simp [Stream.accepting_pushes, h]
  constructor <;> simp [Stream.push, Stream.push_moment, hacc]

theorem push_at_capacity_rejected_w :
    fullStream.buffered_total = fullStream.size ∧
    (fullStream.push asciiA.like charA = (.error .BufferFull, fullStream) ∧
     fullStream.push_moment 7 = (.error .BufferFull, fullStream)) :=
  ⟨by decide,
   push_at_capacity_rejected asciiA.like fullStream (by decide) charA 7⟩

/-- C5. For an alphabet emitted from pairwise-distinct names and values,
every declared `(value, name)` pair satisfies
`to_val (char_with_name name) = value` and
`to_char value = Ok (char_with_name name)`; `char_with_name` on an
undeclared name yields `NameNotFound`, and `to_char` on an undeclared
value yields `UnknownCharacter(value)`. -/
theorem alphabet_bijection (a : GenAlphabet)
    (hn : (a.chars.map Prod.snd).Nodup) (hv : (a.chars.map Prod.fst).Nodup)
    (v : Nat) (n : String) (hmem : (v, n) ∈ a.chars) :
    (∃ i, a.char_with_name n = .ok i ∧ a.to_val i = v ∧ a.to_char v = .ok i)
    ∧ (∀ name, (∀ c ∈ a.chars, c.2 ≠ name) →
        a.char_with_name name = .error .NameNotFound)
    ∧ (∀ rep, (∀ c ∈ a.chars, c.1 ≠ rep) →
        a.to_char rep = .error (.UnknownCharacter rep)) := by
  refine ⟨?_, ?_, ?_⟩
  · obtain ⟨i, h1, h2, h3⟩ := alphabet_lookup hn hv hmem
    refine ⟨i, ?_, ?_, ?_⟩
    · unfold GenAlphabet.char_with_name
      rw [h1]
    · unfold GenAlphabet.to_val
      rw [h3]
    · unfold GenAlphabet.to_char
      rw [h2]
  · intro name hnone
    unfold GenAlphabet.char_with_name
    rw [findIdxFin_eq_none fun c hc => by simp [hnone c hc]]
  · intro rep hnone
    unfold GenAlphabet.to_char
    rw [findIdxFin_eq_none fun c hc => by simp [hnone c hc]]

theorem alphabet_bijection_w :
    (asciiA.chars.map Prod.snd).Nodup ∧
    ((∃ i, asciiA.char_with_name "A_UPPERCASE" = .ok i ∧
        asciiA.to_val i = 65 ∧ asciiA.to_char 65 = .ok i)
     ∧ (∀ name, (∀ c ∈ asciiA.chars, c.2 ≠ name) →
         asciiA.char_with_name name = .error .NameNotFound)
     ∧ (∀ rep, (∀ c ∈ asciiA.chars, c.1 ≠ rep) →
         asciiA.to_char rep = .error (.UnknownCharacter rep))) :=
  ⟨by decide,
   alphabet_bijection asciiA (by decide) (by decide) 65 "A_UPPERCASE"
     (by decide)⟩

/-- C6. The counter equation `buffered_characters + buffered_moments =
buffered_total` holds in every stream state the emitted runtime can
produce: it holds of a fresh stream and is preserved by `push`,
`push_moment`, `pop`, `set_initial_moment` and `forward_duration`, hence
after any sequence of those operations. -/
theorem counter_law {R M : Type} (s : Stream R M) (h : Reachable s) :
    s.buffered_characters + s.buffered_moments = s.buffered_total :=
  (reachable_inv h).2.2

theorem counter_law_w :
    (Stream.new Nat Nat 3).buffered_characters
      + (Stream.new Nat Nat 3).buffered_moments
      = (Stream.new Nat Nat 3).buffered_total :=
  counter_law (Stream.new Nat Nat 3) (Reachable.init 3)

/-- C10. A line matching neither the command regex nor the comment regex is
silently ignored: `parse_line` reports no error and changes nothing but the
line counter. -/
theorem unmatched_line_ignored (p : Parser) (line : String)
    (h1 : parseCmdLine line = none) (h2 : matchesComment line = false) :
    p.parse_line line = .ok { p with lineno := p.lineno + 1 } := by
  simp [Parser.parse_line, h1, h2]

theorem unmatched_line_ignored_w :
    parseCmdLine "this line is not a command" = none ∧
    matchesComment "this line is not a command" = false ∧
    (Parser.new "program").parse_line "this line is not a command" =
      .ok { Parser.new "program" with
              lineno := (Parser.new "program").lineno + 1 } :=
  ⟨by decide, by decide,
   unmatched_line_ignored (Parser.new "program")
     "this line is not a command" (by decide) (by decide)⟩

/-- C1 counterexample. On a fresh stream of capacity 2 (not at capacity),
pushing the declared character `A_UPPERCASE` and immediately popping
surfaces `Empty`, not a `Character` of the pushed variant: `push` writes at
the cursor and advances it, and `pop` consumes at the advanced cursor. -/
theorem push_pop_roundtrip_cex :
    (Stream.new Nat Nat 2).buffered_total < (Stream.new Nat Nat 2).size ∧
    ((Stream.new Nat Nat 2).push asciiA.like charA).1 = .ok () ∧
    (((Stream.new Nat Nat 2).push asciiA.like charA).2.pop asciiA.like).1
      = some .Empty ∧
    ∀ c : Fin asciiA.chars.length,
      (((Stream.new Nat Nat 2).push asciiA.like charA).2.pop
          asciiA.like).1 ≠ some (.Character c) := by
  refine ⟨by decide, by decide, by decide, by decide⟩

/-- C1 (amended). When `BUFFER_SIZE = 1` (so the advanced cursor wraps back
onto the cell just written), pushing a declared character onto a stream not
at capacity and immediately popping yields a `Character` of the same
variant.  (`s.idx < s.size` always holds in the emitted runtime: the cursor
is only ever assigned `(idx + 1) % BUFFER_SIZE`.) -/
theorem push_pop_roundtrip_size_one {R M E : Type} (al : AlphabetLike R E)
    (s : Stream R M) (chr : E) (hsize : s.size = 1)
    (hidx : s.idx < s.size) (hcap : s.buffered_total < s.size)
    (hdec : al.to_char (al.to_val chr) = .ok chr) :
    ((s.push al chr).2.pop al).1 = some (.Character chr) ∧
    (s.push al chr).1 = .ok () := by
  have hacc : s.accepting_pushes = true := by
    simp [Stream.accepting_pushes]
    exact hcap
  have hlen : s.buffer.length = 1 := hsize
  obtain ⟨b, hb⟩ := List.length_eq_one.mp hlen
  have hidx0 : s.idx = 0 := by
    rw [hsize] at hidx
    omega
  constructor
  · simp [Stream.push, Stream.pop, Stream.inc_index, Stream.size, hacc,
      hb, hidx0, hdec]
  · simp [Stream.push, hacc]

theorem push_pop_roundtrip_size_one_w :
    (Stream.new Nat Nat 1).size = 1 ∧
    (Stream.new Nat Nat 1).idx < (Stream.new Nat Nat 1).size ∧
    (Stream.new Nat Nat 1).buffered_total < (Stream.new Nat Nat 1).size ∧
    asciiA.like.to_char (asciiA.like.to_val charA) = .ok charA ∧
    ((((Stream.new Nat Nat 1).push asciiA.like charA).2.pop
        asciiA.like).1 = some (.Character charA) ∧
     ((Stream.new Nat Nat 1).push asciiA.like charA).1 = .ok ()) :=
  ⟨by decide, by decide, by decide, by decide,
   push_pop_roundtrip_size_one asciiA.like (Stream.new Nat Nat 1) charA
     (by decide) (by decide) (by decide) (by decide)⟩

/-- C2 counterexample. Feeding a source whose clock comes first and whose
last definition is a program still open at end of input: the generated
artifact holds the finalized blocks in finalization order (clock before
alphabet) and contains no program block at all — the definition being built
when input ends is never rendered, and blocks are not grouped
alphabet/clock/program. -/
theorem assemble_order_cex :
    (Parser.new "program").parse_lines c2Lines = .ok c2ParserFinal ∧
    c2ParserFinal.generate =
      [.headerBase, .alphabetBase, .clockBase, .streamBase,
       .blank, .clockBlock "K" "u32" "QUANTITY",
       .alphabetBlock "A" "u8" []] ∧
    c2ParserFinal.generate.all (fun c => !c.isProgramBlock) = true ∧
    c2ParserFinal.state =
      .Program ⟨"P", [(.Name "root",
        [.PushMoment (.Moment "1") (.Exit "OUT")])], [], []⟩ := by
  refine ⟨by decide, by decide, by decide, by decide⟩

/-- C2 (amended). `Parser::generate` returns the fixed preamble followed by
the already-finalized blocks, in finalization (source) order; a block is
appended only when a `def*` command closes the previous definition via
`start_state`, so the definition still being built when input ends is not
rendered or included. -/
theorem assemble_order_amended :
    (∀ p : Parser, p.generate =
      [Chunk.headerBase, Chunk.alphabetBase, Chunk.clockBase,
       Chunk.streamBase] ++ p.source)
    ∧ (∀ (p : Parser) (st : State) (q : Parser),
        p.start_state st = .ok q →
        ∃ ch, p.state.generate = .ok ch ∧
          q.source = p.source ++ [ch] ∧ q.state = st ∧
          q.lineno = p.lineno ∧ q.filename = p.filename) := by
  constructor
  · intro p
    rfl
  · intro p st q h
    unfold Parser.start_state at h
    rcases hg : p.state.generate with e | ch
    · rw [hg] at h
      cases h
    · rw [hg] at h
      cases h
      exact ⟨ch, rfl, rfl, rfl, rfl, rfl⟩

theorem assemble_order_amended_w :
    ∃ ch, c2wParser.state.generate = .ok ch ∧
      c2wParserAfter.source = c2wParser.source ++ [ch] ∧
      c2wParserAfter.state = State.alphabet "A" ∧
      c2wParserAfter.lineno = c2wParser.lineno ∧
      c2wParserAfter.filename = c2wParser.filename :=
  assemble_order_amended.2 c2wParser (State.alphabet "A") c2wParserAfter
    (by decide)

/-- C7. In the `InProgram` state the dispatcher rejects the commands named
`jlt` and `jgt` as unknown (it panics); only `jump_earlier` / `jump_later`
are accepted — although the grammar, the documentation and the embedded
example program in main.rs all use `jlt` / `jgt`. -/
theorem jlt_jgt_rejected (p : Program) (fn : String) (ln : Nat) :
    (∃ m1, State.process_command (.Program p) fn ln "jlt"
        ["a_earlier", "Time(A)", "Time(B)"] = .error m1) ∧
    (∃ m2, State.process_command (.Program p) fn ln "jgt"
        ["a_later", "Time(A)", "Time(B)"] = .error m2) :=
  ⟨⟨_, rfl⟩, ⟨_, rfl⟩⟩

/-- C8 counterexample. A second `def_char` reusing an already-defined name
succeeds and records the duplicate pair — no DuplicateName error exists
anywhere in the dispatcher. -/
theorem def_char_duplicate_cex :
    Alphabet.process_command ⟨"X", none, [("0x1", "A_NAME")]⟩ "program" 3
      "def_char" ["0x2", "A_NAME"] =
    .ok ⟨"X", none, [("0x1", "A_NAME"), ("0x2", "A_NAME")]⟩ := by
  decide

/-- C8 (amended). A `def_char` whose name equals the name of an
already-defined character in the alphabet under construction is appended
like any other — the dispatcher performs no duplicate-name check and raises
no error. -/
theorem def_char_duplicate_recorded (a : Alphabet) (fn : String) (ln : Nat)
    (v n : String) (hdup : ∃ v0, (v0, n) ∈ a.chars) :
    a.process_command fn ln "def_char" [v, n] =
      .ok { a with chars := a.chars ++ [(v, n)] } :=
  rfl

theorem def_char_duplicate_recorded_w :
    (∃ v0, (v0, "A_NAME") ∈
      (⟨"X", none, [("0x1", "A_NAME")]⟩ : Alphabet).chars) ∧
    Alphabet.process_command ⟨"X", none, [("0x1", "A_NAME")]⟩ "program" 4
      "def_char" ["0x2", "A_NAME"] =
    .ok { (⟨"X", none, [("0x1", "A_NAME")]⟩ : Alphabet) with
          chars := [("0x1", "A_NAME")] ++ [("0x2", "A_NAME")] } :=
  ⟨⟨"0x1", by decide⟩,
   def_char_duplicate_recorded ⟨"X", none, [("0x1", "A_NAME")]⟩ "program" 4
     "0x2" "A_NAME" ⟨"0x1", by decide⟩⟩

/-- C9. The emitted forward_duration loop, run on a gateway pre-loaded with
`C,C,C,Moment(5),C` and a fresh exit: the three characters are pushed to
the exit, the moment is pushed and the loop stops, leaving the exit holding
`C,C,C,Moment(5)` in order and the remaining `C` at the gateway's
cursor. -/
theorem forward_duration_scenario :
    fwdDurationLoop asciiC.like 10 fdGateway fdExit =
      some (fdGatewayAfter, fdExitAfter) ∧
    fdExitAfter.buffer =
      [.Character 67, .Character 67, .Character 67, .Moment 5, .Empty] ∧
    fdExitAfter.buffered_characters = 3 ∧
    fdExitAfter.buffered_moments = 1 ∧
    fdGatewayAfter.buffer.getD fdGatewayAfter.idx .Empty =
      .Character 67 := by
  refine ⟨by decide, by decide, by decide, by decide, by decide⟩

end TimeLang
